import Mathlib

/-!
Verification of the docker-compose-manager engine (package docker plus the
update-orchestration part of package ui) against its design document.

Each Go function of the engine is shallowly embedded as a Lean function.
External command invocations (docker / docker-compose) are modelled by
explicit environment records that carry the observable outcome of each
invocation: the function under verification is then a pure function of its
arguments and that environment.  Machine strings are Lean Strings, Go maps
from string keys are association lists, time.Time values are Int nanosecond
timestamps, and the JSON (de)serialization used by the cache store is
embedded as a concrete Json value type with an encoder and a decoder.
-/

namespace Docker

/-! ### Go string primitives

Helpers mirroring the semantics of the Go strings package functions used by
the engine: Contains, HasPrefix, TrimPrefix, SplitN(s, sep, 2), Fields,
and the suffix-after-last-dot slice used by cleanDockerError. -/

/-- Whether the pattern list occurs contiguously inside the other list
(semantics of Go strings.Contains on the character level). -/
def listContainsSub (pat : List Char) : List Char → Bool
  | [] => pat.isEmpty
  | c :: rest => pat.isPrefixOf (c :: rest) || listContainsSub pat rest

/-- Go strings.Contains. -/
def strContains (s pat : String) : Bool :=
  listContainsSub pat.toList s.toList

/-- Go strings.HasPrefix. -/
def strHasPre (s pat : String) : Bool :=
  pat.toList.isPrefixOf s.toList

/-- Go strings.TrimPrefix: removes one leading occurrence of the pattern. -/
def strTrimPre (s pat : String) : String :=
  if pat.toList.isPrefixOf s.toList then (s.toList.drop pat.toList.length).asString else s

/-- Go strings.TrimSpace on the character level. -/
def goTrim (s : String) : String :=
  (((s.toList.dropWhile Char.isWhitespace).reverse.dropWhile Char.isWhitespace).reverse).asString

/-- ASCII lower-casing of one character (semantics of Go strings.ToLower on
the ASCII strings the engine handles). -/
def chLower (c : Char) : Char :=
  if 'A' ≤ c && c ≤ 'Z' then Char.ofNat (c.toNat + 32) else c

/-- Go strings.ToLower. -/
def goToLower (s : String) : String :=
  (s.toList.map chLower).asString

/-- Splitting a character list on every occurrence of a separator character
(semantics of Go strings.Split with a one-character separator: the empty
input yields one empty piece, a trailing separator a trailing empty piece). -/
def listSplitOnChar (sep : Char) : List Char → List (List Char)
  | [] => [[]]
  | c :: rest =>
    let r := listSplitOnChar sep rest
    if c = sep then [] :: r
    else
      match r with
      | [] => [[c]]
      | g :: gs => (c :: g) :: gs

/-- Go strings.Split(s, newline). -/
def goSplitLines (s : String) : List String :=
  (listSplitOnChar (Char.ofNat 10) s.toList).map List.asString

/-- Breaks a character list at the first occurrence of the separator. -/
def listBreakAt (sep : Char) : List Char → Option (List Char × List Char)
  | [] => none
  | c :: rest =>
    if c = sep then some ([], rest)
    else (listBreakAt sep rest).map (fun pr => (c :: pr.1, pr.2))

/-- Go strings.SplitN(s, sep, 2) for a one-character separator, returning the
two pieces when the separator occurs and none when it does not (in which
case Go returns a one-element slice and the callers length-2 checks fail). -/
def splitFirstAt (sep : Char) (s : String) : Option (String × String) :=
  (listBreakAt sep s.toList).map (fun pr => (pr.1.asString, pr.2.asString))

/-- Splitting a character list at every character satisfying the predicate. -/
def listSplitOnP (p : Char → Bool) : List Char → List (List Char)
  | [] => [[]]
  | c :: rest =>
    let r := listSplitOnP p rest
    if p c then [] :: r
    else
      match r with
      | [] => [[c]]
      | g :: gs => (c :: g) :: gs

/-- Go strings.Fields: whitespace-separated tokens, no empties. -/
def goFields (s : String) : List String :=
  ((listSplitOnP Char.isWhitespace s.toList).filter (fun l => !l.isEmpty)).map List.asString

/-- Suffix of the string after its last dot, the whole string when it has no
dot (the errorType cleanup in cleanDockerError around the LastIndex call). -/
def afterLastDot (s : String) : String :=
  if s.toList.contains '.' then ((s.toList.reverse.takeWhile (fun c => c ≠ '.')).reverse).asString
  else s

/-! ### Data model (type Project, type ImageInfo) -/

/-- ImageInfo stores version information for an image (source struct ImageInfo). -/
structure ImageInfo where
  name : String
  currentVersion : String
  latestVersion : String
  hasUpdate : Bool
deriving DecidableEq, Repr

/-- Project represents a Docker Compose project (source struct Project).
The Go map ImageInfo map[string]ImageInfo is modelled as an association
list with distinct keys maintained by mapInsert; time.Time LastUpdated is
an Int nanosecond timestamp. -/
structure Project where
  name : String
  path : String
  composeFile : String
  status : String
  runningContainers : Nat
  images : List String
  imageInfo : List (String × ImageInfo)
  hasUpdates : Bool
  lastUpdated : Int
deriving DecidableEq, Repr

/-- Go map assignment m[k] = v on the association-list model: replaces the
binding when the key is present, appends it otherwise. -/
def mapInsert (k : String) (v : ImageInfo) : List (String × ImageInfo) → List (String × ImageInfo)
  | [] => [(k, v)]
  | (k', v') :: rest => if k' = k then (k, v) :: rest else (k', v') :: mapInsert k v rest

/-! ### Cache serialization (encoding/json)

The cache file holds json.MarshalIndent of the project slice.  The JSON
value space is embedded concretely; the encoder follows the json struct
tags of Project and ImageInfo, and the decoder performs key lookups on
arbitrary Json values (returning none on malformed content, as
json.Unmarshal errors do). -/

/-- JSON values as written/read by the cache store. -/
inductive Json where
  | str (s : String)
  | num (n : Int)
  | jbool (b : Bool)
  | arr (xs : List Json)
  | obj (fields : List (String × Json))

/-- First binding for the key in a JSON object (Go json object field lookup). -/
def jLookup (k : String) : List (String × Json) → Option Json
  | [] => none
  | (k', v) :: rest => if k' = k then some v else jLookup k rest

/-- Encoder for ImageInfo following its json struct tags. -/
def encodeImageInfo (v : ImageInfo) : Json :=
  .obj [("name", .str v.name),
        ("current_version", .str v.currentVersion),
        ("latest_version", .str v.latestVersion),
        ("has_update", .jbool v.hasUpdate)]

/-- Encoder for Project following its json struct tags. -/
def encodeProject (p : Project) : Json :=
  .obj [("name", .str p.name),
        ("path", .str p.path),
        ("compose_file", .str p.composeFile),
        ("status", .str p.status),
        ("running_containers", .num (Int.ofNat p.runningContainers)),
        ("images", .arr (p.images.map Json.str)),
        ("image_info", .obj (p.imageInfo.map (fun kv => (kv.1, encodeImageInfo kv.2)))),
        ("has_updates", .jbool p.hasUpdates),
        ("last_updated", .num p.lastUpdated)]

/-- Encoder for the project slice (json.MarshalIndent of []*Project). -/
def encodeProjects (ps : List Project) : Json :=
  .arr (ps.map encodeProject)

def asStr : Json → Option String
  | .str s => some s
  | _ => none

def asBool : Json → Option Bool
  | .jbool b => some b
  | _ => none

def asNat : Json → Option Nat
  | .num n => if n < 0 then none else some n.toNat
  | _ => none

def asInt : Json → Option Int
  | .num n => some n
  | _ => none

/-- Decodes every element of a JSON array with the given element decoder,
failing when any element fails. -/
def decodeList (dec : Json → Option α) : List Json → Option (List α)
  | [] => some []
  | j :: rest =>
    match dec j, decodeList dec rest with
    | some a, some as => some (a :: as)
    | _, _ => none

def decodeStrList : Json → Option (List String)
  | .arr xs => decodeList asStr xs
  | _ => none

/-- Decoder for ImageInfo. -/
def decodeImageInfo (j : Json) : Option ImageInfo :=
  match j with
  | .obj fs =>
    (jLookup "name" fs).bind fun jn => (asStr jn).bind fun name =>
    (jLookup "current_version" fs).bind fun jc => (asStr jc).bind fun current =>
    (jLookup "latest_version" fs).bind fun jl => (asStr jl).bind fun latest =>
    (jLookup "has_update" fs).bind fun jh => (asBool jh).bind fun hasUp =>
    some ⟨name, current, latest, hasUp⟩
  | _ => none

/-- Decoder for the image-info map (JSON object of ImageInfo values). -/
def decodePairs : List (String × Json) → Option (List (String × ImageInfo))
  | [] => some []
  | (k, j) :: rest =>
    match decodeImageInfo j, decodePairs rest with
    | some v, some vs => some ((k, v) :: vs)
    | _, _ => none

def decodeInfoMap : Json → Option (List (String × ImageInfo))
  | .obj fs => decodePairs fs
  | _ => none

/-- Decoder for Project. -/
def decodeProject (j : Json) : Option Project :=
  match j with
  | .obj fs =>
    (jLookup "name" fs).bind fun j1 => (asStr j1).bind fun name =>
    (jLookup "path" fs).bind fun j2 => (asStr j2).bind fun path =>
    (jLookup "compose_file" fs).bind fun j3 => (asStr j3).bind fun composeFile =>
    (jLookup "status" fs).bind fun j4 => (asStr j4).bind fun status =>
    (jLookup "running_containers" fs).bind fun j5 => (asNat j5).bind fun rc =>
    (jLookup "images" fs).bind fun j6 => (decodeStrList j6).bind fun images =>
    (jLookup "image_info" fs).bind fun j7 => (decodeInfoMap j7).bind fun info =>
    (jLookup "has_updates" fs).bind fun j8 => (asBool j8).bind fun hu =>
    (jLookup "last_updated" fs).bind fun j9 => (asInt j9).bind fun lu =>
    some ⟨name, path, composeFile, status, rc, images, info, hu, lu⟩
  | _ => none

/-- Decoder for the project slice (json.Unmarshal into []*Project). -/
def decodeProjects : Json → Option (List Project)
  | .arr xs => decodeList decodeProject xs
  | _ => none

/-! ### Cache store (SaveToCache, LoadFromCache)

The cache file on disk is modelled by its observable states: missing (Stat
fails), unreadable (Stat succeeds, ReadFile fails), or present with a
modification time and a JSON content.  SaveToCache overwrites the file with
the encoded collection, stamping the current time as modification time. -/

inductive CacheFile where
  | missing
  | unreadable (modTime : Int)
  | present (modTime : Int) (content : Json)

/-- SaveToCache marshals the projects and writes the cache file (source
SaveToCache; the write is the state the file is left in). -/
def SaveToCache (projects : List Project) (now : Int) : CacheFile :=
  .present now (encodeProjects projects)

/-- LoadFromCache: Stat (missing file fails), then the age check
time.Since(ModTime()) > maxAge, then ReadFile, then json.Unmarshal
(source LoadFromCache, in that order). -/
def LoadFromCache (file : CacheFile) (maxAge : Int) (now : Int) : Except String (List Project) :=
  match file with
  | .missing => .error "cache file not found"
  | .unreadable modTime =>
    if now - modTime > maxAge then .error "cache expired"
    else .error "failed to read cache"
  | .present modTime content =>
    if now - modTime > maxAge then .error "cache expired"
    else
      match decodeProjects content with
      | none => .error "failed to unmarshal cache"
      | some ps => .ok ps

/-! ### Round-trip lemmas for the cache serialization -/

theorem decodeImageInfo_encode (v : ImageInfo) :
    decodeImageInfo (encodeImageInfo v) = some v := rfl

theorem decodeList_asStr (l : List String) :
    decodeList asStr (l.map Json.str) = some l := by
  induction l with
  | nil => rfl
  | cons s rest ih => simp [decodeList, asStr, ih]

theorem decodeStrList_encode (l : List String) :
    decodeStrList (Json.arr (l.map Json.str)) = some l := by
  simp [decodeStrList, decodeList_asStr]

theorem decodePairs_encode (l : List (String × ImageInfo)) :
    decodePairs (l.map (fun kv => (kv.1, encodeImageInfo kv.2))) = some l := by
  induction l with
  | nil => rfl
  | cons kv rest ih => simp [decodePairs, decodeImageInfo_encode, ih]

theorem decodeProject_encode (p : Project) :
    decodeProject (encodeProject p) = some p := by
  have h : ¬ ((p.runningContainers : Int) < 0) := by omega
  simp [decodeProject, encodeProject, jLookup, asStr, asBool, asNat, asInt,
        decodeStrList_encode, decodePairs_encode, decodeInfoMap, h]

theorem decodeProjects_encode (ps : List Project) :
    decodeProjects (encodeProjects ps) = some ps := by
  simp only [decodeProjects, encodeProjects]
  induction ps with
  | nil => rfl
  | cons p rest ih => simp [decodeList, decodeProject_encode, ih]

/-- C1: saving a project collection with SaveToCache and loading it back with
LoadFromCache while the file age is still within the staleness window
returns a collection equal in all fields (name, path, compose file, status,
running-container count, images, per-image ImageInfo map, has-updates flag,
last-updated timestamp) to the original collection. -/
theorem saveToCache_loadFromCache_roundtrip (projects : List Project)
    (saveTime loadTime maxAge : Int) (h : loadTime - saveTime ≤ maxAge) :
    LoadFromCache (SaveToCache projects saveTime) maxAge loadTime = .ok projects := by
  simp [SaveToCache, LoadFromCache, not_lt.mpr h, decodeProjects_encode]

/-- Sample project used to instantiate the cache round-trip. -/
def rtProject : Project :=
  { name := "web", path := "/srv/web", composeFile := "/srv/web/docker-compose.yml",
    status := "running:2", runningContainers := 2, images := ["nginx:latest"],
    imageInfo := [("nginx:latest", ⟨"nginx:latest", "1.27", "1.27", false⟩)],
    hasUpdates := false, lastUpdated := 1000 }

/-- Witness for C1 at a concrete one-project collection saved at time 1000
and loaded at time 1500 with a 3600 staleness window. -/
theorem saveToCache_loadFromCache_roundtrip_witness :
    (1500 - (1000 : Int) ≤ 3600) ∧
    LoadFromCache (SaveToCache [rtProject] 1000) 3600 1500 = .ok [rtProject] :=
  ⟨by decide, saveToCache_loadFromCache_roundtrip [rtProject] 1000 1500 3600 (by decide)⟩

/-- C4 counterexample: a cache file written at time 0 and loaded at time 5
with maxAge 5 has age exactly maxAge, and LoadFromCache accepts it (the
age comparison is the strict time.Since(mtime) > maxAge, so the
exact-threshold file is NOT treated as expired, contrary to the claim). -/
theorem loadFromCache_exact_threshold_accepted :
    LoadFromCache (SaveToCache [] 0) 5 5 = .ok [] := rfl

/-- C4 (amended): LoadFromCache fails on a missing file, an unreadable file,
a strictly-older-than-maxAge file and a malformed file, but a file whose age
equals maxAge exactly passes the age check (the comparison is strict, so the
exact-threshold file is accepted, never reported expired). -/
theorem loadFromCache_failure_policy (maxAge now modTime : Int) (c : Json) :
    (LoadFromCache .missing maxAge now = .error "cache file not found")
    ∧ (now - modTime ≤ maxAge →
        LoadFromCache (.unreadable modTime) maxAge now = .error "failed to read cache")
    ∧ (now - modTime > maxAge →
        LoadFromCache (.present modTime c) maxAge now = .error "cache expired")
    ∧ (now - modTime ≤ maxAge → decodeProjects c = none →
        LoadFromCache (.present modTime c) maxAge now = .error "failed to unmarshal cache")
    ∧ (now - modTime = maxAge →
        LoadFromCache (.present modTime c) maxAge now ≠ .error "cache expired") := by
  refine ⟨rfl, fun h => ?_, fun h => ?_, fun h hc => ?_, fun h => ?_⟩
  · simp [LoadFromCache, not_lt.mpr h]
  · simp [LoadFromCache, h]
  · simp [LoadFromCache, not_lt.mpr h, hc]
  · have hle : ¬ (maxAge < now - modTime) := by omega
    cases hdec : decodeProjects c with
    | none => simp [LoadFromCache, hle, hdec]
    | some ps => simp [LoadFromCache, hle, hdec]

/-! ### Version resolver (getRealVersion)

The two external probes (docker run --rm IMG --version, and docker image
inspect of the config labels) are modelled by a VersionEnv carrying their
observable outcomes, and getRealVersion additionally returns the list of
probes it invoked, in order, so absence of probing is provable. -/

/-- Outcomes of the external probes available to getRealVersion: runOutput
is the stdout of the docker run --version invocation (none when the command
errors, including the 5s timeout), labels the parsed config labels (none
when the inspect command or the JSON unmarshal fails). -/
structure VersionEnv where
  runOutput : Option String
  labels : Option (List (String × String))

/-- External probes getRealVersion can invoke. -/
inductive Probe where
  | runVersion (image : String)
  | inspectLabels (image : String)
deriving DecidableEq, Repr

/-- The fixed set of generic markers (source genericTags slice). -/
def genericTags : List String := ["latest", "stable", "edge", "main", "master"]

/-- The labeled-line branch of the probe-output loop: line contains
version: case-insensitively, SplitN on the colon, trimmed value when
non-empty (source lines 273-281). -/
def lineVersionLabel (line : String) : Option String :=
  if strContains (goToLower line) "version:" then
    match splitFirstAt ':' line with
    | some (_, rest) =>
      let version := goTrim rest
      if version ≠ "" then some version else none
    | none => none
  else none

/-- TrimPrefix v then TrimPrefix V applied to a token (source lines 285-286). -/
def stripLeadingV (field : String) : String :=
  strTrimPre (strTrimPre field "v") "V"

/-- The token heuristic: after stripping a leading v or V, the token must
contain a dot, be non-empty and start with a digit (source line 288). -/
def heuristicToken (field : String) : Option String :=
  let f := stripLeadingV field
  match f.toList with
  | [] => none
  | c :: _ => if strContains f "." && ('0' ≤ c && c ≤ '9') then some f else none

/-- The token-scanning branch of the probe-output loop: first field of the
line that passes the heuristic (source lines 283-291). -/
def lineHeuristic (line : String) : Option String :=
  (goFields line).findSome? heuristicToken

/-- One iteration of the probe-output loop: the line is trimmed, then the
labeled-line branch is tried, then the token heuristic on the same line. -/
def lineCandidate (line : String) : Option String :=
  match lineVersionLabel (goTrim line) with
  | some v => some v
  | none => lineHeuristic (goTrim line)

/-- The slice lines[:min(3, len(lines))] of the trimmed, newline-split
probe output that the loop inspects. -/
def inspectedLines (out : String) : List String :=
  let lines := goSplitLines (goTrim out)
  lines.take (min 3 lines.length)

/-- The whole parsing loop over the run-probe output (source lines 266-293):
first candidate produced by the per-line scan of the inspected lines. -/
def parseProbeOutput (out : String) : Option String :=
  let lines := goSplitLines (goTrim out)
  if lines.length > 0 then (inspectedLines out).findSome? lineCandidate
  else none

/-- Go label-map lookup. -/
def labelLookup (k : String) : List (String × String) → Option String
  | [] => none
  | (k', v) :: rest => if k' = k then some v else labelLookup k rest

/-- Third label check: the informal VERSION convention (source lines 310-312). -/
def labelLast (labels : List (String × String)) (tagVersion : String) : String :=
  match labelLookup "VERSION" labels with
  | some version => if version ≠ "" then version else tagVersion
  | none => tagVersion

/-- Second label check: the informal version convention (source lines 307-309). -/
def labelNext (labels : List (String × String)) (tagVersion : String) : String :=
  match labelLookup "version" labels with
  | some version => if version ≠ "" then version else labelLast labels tagVersion
  | none => labelLast labels tagVersion

/-- Label-inspection fallback (source lines 296-314): OCI version label
accepted when non-empty and different from the raw tag, then the two
informal conventions, else the tag unchanged. -/
def labelFallback (env : VersionEnv) (tagVersion : String) : String :=
  match env.labels with
  | none => tagVersion
  | some labels =>
    match labelLookup "org.opencontainers.image.version" labels with
    | some version =>
      if version ≠ "" && version ≠ tagVersion then version
      else labelNext labels tagVersion
    | none => labelNext labels tagVersion

/-- getRealVersion (source lines 244-318), returning the resolved version
together with the probes performed, in order. -/
def getRealVersion (env : VersionEnv) (imageName tagVersion : String) : String × List Probe :=
  if !(genericTags.contains tagVersion) then (tagVersion, [])
  else
    match env.runOutput with
    | some output =>
      match parseProbeOutput output with
      | some v => (v, [.runVersion imageName])
      | none => (labelFallback env tagVersion, [.runVersion imageName, .inspectLabels imageName])
    | none => (labelFallback env tagVersion, [.runVersion imageName, .inspectLabels imageName])

/-- C3: for every image reference and every tag that is not one of the five
generic markers, getRealVersion returns the tag unchanged and performs no
external probe (no container run, no label inspection), in every probe
environment. -/
theorem getRealVersion_pinned_tag (env : VersionEnv) (imageName tagVersion : String)
    (h : genericTags.contains tagVersion = false) :
    getRealVersion env imageName tagVersion = (tagVersion, []) := by
  unfold getRealVersion
  rw [h]
  rfl

/-- Witness for C3: the pinned tag 15 of postgres:15 is returned unchanged
with an empty probe trace, even in an environment where both probes would
have produced answers. -/
theorem getRealVersion_pinned_tag_witness :
    genericTags.contains "15" = false
    ∧ getRealVersion ⟨some "Version: 9.9", some [("version", "9.9")]⟩ "postgres:15" "15"
        = ("15", []) :=
  ⟨by decide,
   getRealVersion_pinned_tag ⟨some "Version: 9.9", some [("version", "9.9")]⟩
     "postgres:15" "15" (by decide)⟩

/-- Helper: a findSome? scan ignores a leading block of lines that produce
no candidate. -/
theorem findSome?_append_none {α β : Type} (f : α → Option β) :
    ∀ (pre : List α), (∀ l ∈ pre, f l = none) →
      ∀ l2 : List α, (pre ++ l2).findSome? f = l2.findSome? f := by
  intro pre hpre
  induction pre with
  | nil => intro l2; rfl
  | cons a rest ih =>
    intro l2
    have ha : f a = none := hpre a (by simp)
    have hrest : ∀ l ∈ rest, f l = none := fun l hl => hpre l (by simp [hl])
    simp [List.findSome?, ha, ih hrest l2]

/-- C5 counterexample: the probe output has a version:-labeled line among
the inspected lines (with trimmed value 9.9), yet getRealVersion on the
generic tag latest returns the heuristic token 1.2.3 taken from an earlier
line, not the labeled value — the label does not take priority over a
heuristic match on an earlier line. -/
theorem probe_heuristic_beats_later_label :
    lineVersionLabel "Version: 9.9" = some "9.9"
    ∧ "Version: 9.9" ∈ inspectedLines "myapp 1.2.3\nVersion: 9.9"
    ∧ getRealVersion ⟨some "myapp 1.2.3\nVersion: 9.9", some []⟩ "img" "latest"
        = ("1.2.3", [Probe.runVersion "img"]) := by
  refine ⟨rfl, by decide, rfl⟩

/-- C5 (amended): the probe-output scan works line by line: on each inspected
line a version:-labeled value takes priority over the token heuristic of
that same line, and a line is consulted at all only when no earlier
inspected line produced any candidate.  Hence a labeled value is returned
when its line is the first to produce a candidate, and the heuristic value
of a line is returned only when that line has no labeled value and no
earlier line produced a candidate. -/
theorem parseProbeOutput_line_priority (out : String) (pre rest : List String) (line v : String)
    (hsplit : inspectedLines out = pre ++ line :: rest)
    (hpre : ∀ l ∈ pre, lineCandidate l = none) :
    (lineVersionLabel (goTrim line) = some v → parseProbeOutput out = some v)
    ∧ (lineVersionLabel (goTrim line) = none → lineHeuristic (goTrim line) = some v →
        parseProbeOutput out = some v) := by
  have hne : inspectedLines out ≠ [] := by
    rw [hsplit]; simp
  have hlen : (goSplitLines (goTrim out)).length > 0 := by
    by_contra hzero
    have hnil : goSplitLines (goTrim out) = [] := by
      cases h : goSplitLines (goTrim out) with
      | nil => rfl
      | cons a l => exact absurd (by simp [h]) hzero
    exact hne (by simp [inspectedLines, hnil])
  have hrw : parseProbeOutput out = (pre ++ line :: rest).findSome? lineCandidate := by
    simp only [parseProbeOutput, if_pos hlen, hsplit]
  rw [findSome?_append_none lineCandidate pre hpre] at hrw
  constructor
  · intro hlab
    rw [hrw]
    simp [List.findSome?, lineCandidate, hlab]
  · intro hlab hheu
    rw [hrw]
    simp [List.findSome?, lineCandidate, hlab, hheu]

/-- Witness for the C5 line-priority theorem: a single-line output whose
version: label is returned. -/
theorem parseProbeOutput_line_priority_witness :
    parseProbeOutput "Version: 7.7" = some "7.7" :=
  (parseProbeOutput_line_priority "Version: 7.7" [] [] "Version: 7.7" "7.7"
    (by decide) (by simp)).1 (by decide)

/-! ### Project status reader (UpdateStatus)

UpdateStatus never returns a non-nil error in the source (both failing
query paths are absorbed into a stopped status), so it is embedded as a
total state transformer.  The primary/legacy fallback pair of each query is
collapsed into its combined observable outcome. -/

/-- Outcomes of the two status queries: psQuiet is the stdout of the
ps --quiet query (none when both the modern and the legacy invocation
fail), psServices the final stdout of the services-filtered query (a
failure of both invocations leaves it as the failed commands output). -/
structure StatusEnv where
  psQuiet : Option String
  psServices : String

/-- UpdateStatus (source lines 108-155). -/
def UpdateStatus (env : StatusEnv) (p : Project) : Project :=
  match env.psQuiet with
  | none => { p with status := "stopped", runningContainers := 0 }
  | some output =>
    let lines := goSplitLines (goTrim output)
    if lines.length = 1 ∧ lines.headD "" = "" then
      { p with status := "stopped", runningContainers := 0 }
    else
      let lines := goSplitLines (goTrim env.psServices)
      let running := if 0 < lines.length ∧ lines.headD "" ≠ "" then lines.length else 0
      { p with runningContainers := running,
               status := if 0 < running then "running:" ++ toString running else "stopped" }

/-! ### Update executor (cleanDockerError, PullOnly, Update) -/

/-- Progress and informational lines skipped by cleanDockerError
(source lines 546-553). -/
def isSkippableInfo (line : String) : Bool :=
  strContains line "Pulling" || strContains line "Downloaded" ||
  strContains line "Digest:" || strContains line "Status:" ||
  strContains line "Waiting" || strContains line "Extracting"

/-- Python-traceback noise lines skipped by cleanDockerError
(source lines 556-562). -/
def isTracebackNoise (line : String) : Bool :=
  strHasPre line "Traceback" || strHasPre line "File " ||
  strContains line "raise error_to_reraise" || strContains line "raise err from" ||
  (strContains line "line " && strContains line ".py")

/-- The Error:/Exception: extraction of cleanDockerError (source lines
566-579): error type trimmed and stripped to its last dot-component,
message trimmed. -/
def extractErrorLine (line : String) : Option String :=
  if strContains line "Error:" || strContains line "Exception:" then
    match splitFirstAt ':' line with
    | some (t, m) => some (afterLastDot (goTrim t) ++ ": " ++ goTrim m)
    | none => none
  else none

/-- The keyword filter for candidate error lines (source lines 582-588). -/
def isKeywordError (line : String) : Bool :=
  (strContains line "Error" || strContains line "error" ||
   strContains line "failed" || strContains line "cannot") &&
  !(strContains line "Traceback")

/-- The line-scanning loop of cleanDockerError (source lines 537-589): an
Error:/Exception: match replaces everything collected so far and stops the
scan; keyword matches accumulate. -/
def scanLines : List String → List String → List String
  | [], acc => acc
  | l :: rest, acc =>
    let line := goTrim l
    if line = "" then scanLines rest acc
    else if isSkippableInfo line then scanLines rest acc
    else if isTracebackNoise line then scanLines rest acc
    else
      match extractErrorLine line with
      | some e => [e]
      | none =>
        if isKeywordError line then scanLines rest (acc ++ [line])
        else scanLines rest acc

/-- First character index at which the pattern occurs. -/
def firstIndexOfSubAux (pat : List Char) : List Char → Nat → Option Nat
  | [], i => if pat.isEmpty then some i else none
  | c :: rest, i =>
    if pat.isPrefixOf (c :: rest) then some i else firstIndexOfSubAux pat rest (i + 1)

/-- Go strings.Index (character level). -/
def firstIndexOfSub (s pat : String) : Option Nat :=
  firstIndexOfSubAux pat.toList s.toList 0

/-- cleanDockerError (source lines 533-619): scans the trimmed split
output, falls back to the last non-empty raw line, keeps only the last
relevant line, strips a docker command echo before the error keyword, and
formats the operation-failed message (the errStr argument is the textual
Go error used when no line at all is available). -/
def cleanDockerError (operation output errStr : String) : String :=
  let lines := goSplitLines (goTrim output)
  let relevant := scanLines lines []
  let relevant :=
    if relevant.isEmpty then
      match lines.reverse.find? (fun l => l ≠ "") with
      | some l => [l]
      | none => []
    else relevant
  let relevant := if relevant.length > 1 then relevant.drop (relevant.length - 1) else relevant
  match relevant with
  | [] => operation ++ " failed: " ++ errStr
  | errorMsg :: _ =>
    let errorMsg :=
      if strContains errorMsg "docker" &&
         (strContains errorMsg "Error" || strContains errorMsg "error") then
        match firstIndexOfSub errorMsg "Error" with
        | some idx => (errorMsg.toList.drop idx).asString
        | none =>
          match firstIndexOfSub errorMsg "error" with
          | some idx => (errorMsg.toList.drop idx).asString
          | none => errorMsg
      else errorMsg
    operation ++ " failed: " ++ errorMsg

/-- Go strings.HasSuffix. -/
def strEndsWith (s pat : String) : Bool :=
  pat.toList.reverse.isPrefixOf s.toList.reverse

/-- Observable outcomes of the external commands run by PullOnly and
Update: a some value carries the combined output and Go error text of a
pull (respectively recreate) whose modern and legacy invocation both
failed; the intermediate down --remove-orphans cleanup of Update ignores
its error and has no observable outcome. -/
structure ExecEnv where
  pullFail : Option (String × String)
  recreateFail : Option (String × String)
  status : StatusEnv

/-- PullOnly (source lines 472-489). -/
def PullOnly (env : ExecEnv) (p : Project) : Except String Project :=
  match env.pullFail with
  | some (output, errStr) => .error (cleanDockerError "pull" output errStr)
  | none => .ok (UpdateStatus env.status p)

/-- Update (source lines 492-530): pull, ignored orphan cleanup, recreate,
then clear the aggregate update flag, stamp the time and refresh status. -/
def Update (env : ExecEnv) (now : Int) (p : Project) : Except String Project :=
  match env.pullFail with
  | some (output, errStr) => .error (cleanDockerError "pull" output errStr)
  | none =>
    match env.recreateFail with
    | some (output, errStr) => .error (cleanDockerError "recreate" output errStr)
    | none =>
      .ok (UpdateStatus env.status { p with hasUpdates := false, lastUpdated := now })

/-! ### Image-info operations (GetImages, UpdateImageInfo, GetRunningContainerInfo) -/

/-- The non-empty lines of the config --images output (source lines
231-240); the docker invocations of GetImages are collapsed into the
combined outcome carried by the environment. -/
def parseImagesOutput (out : String) : List String :=
  (goSplitLines (goTrim out)).filter (fun l => l ≠ "")

/-- Tag extraction shared by UpdateImageInfo, GetRunningContainerInfo: the
default latest, or the part after the last colon (source lines 352-357 and
389-394, the identical snippet). -/
def currentTagOf (imageName : String) : String :=
  if strContains imageName ":" then
    (((listSplitOnChar ':' imageName.toList).map List.asString).getLastD "latest")
  else "latest"

/-- Outcome of the per-image pull of UpdateImageInfo: success carries the
trimmed image ID re-queried after the pull; timeout is the
context.DeadlineExceeded case; failed is any other pull error (which
leaves latestID empty). -/
inductive PullOutcome where
  | ok (latestID : String)
  | timeout
  | failed
deriving DecidableEq, Repr

/-- Observable outcomes of the docker invocations of one iteration of the
UpdateImageInfo loop: localErr and localID model the docker images ID
query (error flag and trimmed output), pull the bounded pull. -/
structure ImageCheckEnv where
  localErr : Bool
  localID : String
  pull : PullOutcome
deriving Repr

/-- Environment of UpdateImageInfo: the combined config --images outcome
and the per-iteration command outcomes (indexed by loop position). -/
structure UpdateInfoEnv where
  configImages : Option String
  check : Nat → ImageCheckEnv

/-- One iteration of the UpdateImageInfo loop (source lines 388-460),
transforming the (image-info map, hasUpdates accumulator) pair. -/
def processImage (e : ImageCheckEnv) (imageName : String)
    (st : List (String × ImageInfo) × Bool) : List (String × ImageInfo) × Bool :=
  let currentTag := currentTagOf imageName
  let currentID := e.localID
  if e.localErr = true ∨ currentID = "" then
    (mapInsert imageName ⟨imageName, currentTag, "not pulled", true⟩ st.1, true)
  else
    match e.pull with
    | .timeout =>
      (mapInsert imageName ⟨imageName, currentTag, "timeout", false⟩ st.1, st.2)
    | .ok latestID =>
      let hasUpdate := currentID ≠ latestID && latestID ≠ ""
      let latestVersion := if hasUpdate then currentTag ++ " (newer)" else currentTag
      (mapInsert imageName ⟨imageName, currentTag, latestVersion, hasUpdate⟩ st.1,
       st.2 || hasUpdate)
    | .failed =>
      let latestID := ""
      let hasUpdate := currentID ≠ latestID && latestID ≠ ""
      let latestVersion := if hasUpdate then currentTag ++ " (newer)" else currentTag
      (mapInsert imageName ⟨imageName, currentTag, latestVersion, hasUpdate⟩ st.1,
       st.2 || hasUpdate)

/-- UpdateImageInfo (source lines 375-464): none models the GetImages
error return; on success the images field, the image-info map and the
aggregate hasUpdates flag are set.  Entries of the pre-existing map whose
keys are not in the current image list are never touched. -/
def UpdateImageInfo (env : UpdateInfoEnv) (p : Project) : Option Project :=
  match env.configImages with
  | none => none
  | some out =>
    let images := parseImagesOutput out
    let st := images.enum.foldl
      (fun st pair => processImage (env.check pair.1) pair.2 st) (p.imageInfo, false)
    some { p with images := images, imageInfo := st.1, hasUpdates := st.2 }

/-- Environment of GetRunningContainerInfo: the docker ps image listing
and the probe environments consumed by getRealVersion. -/
structure RunningInfoEnv where
  psImages : Option String
  version : String → VersionEnv

/-- GetRunningContainerInfo (source lines 330-372): fills the image-info
map from the running containers, leaving the aggregate hasUpdates flag
untouched. -/
def GetRunningContainerInfo (env : RunningInfoEnv) (p : Project) : Option Project :=
  match env.psImages with
  | none => none
  | some out =>
    let lines := goSplitLines (goTrim out)
    let info := lines.foldl (fun acc rawName =>
      let imageName := goTrim rawName
      if imageName = "" then acc
      else
        let tagVersion := currentTagOf imageName
        let currentVersion := (getRealVersion (env.version imageName) imageName tagVersion).1
        mapInsert imageName ⟨imageName, currentVersion, currentVersion, false⟩ acc) p.imageInfo
    some { p with imageInfo := info }

/-! ### Project discovery (FindProjects)

The directory tree is embedded as an inductive FSNode; filepath.Walk is
embedded as a traversal that visits a node, applies the walk callback and
recurses into children unless the callback pruned the directory.  Per-entry
access errors (lstat or readDir failures) are modelled by the set of
relative paths that error: Go filepath.Walk hands the error to the
callback, whose first statement returns nil, so the entry (and for a
directory its subtree, which Walk cannot read) is skipped and the walk
continues.  The callback returns only nil or filepath.SkipDir (its two
return statements, type FnRes below), and filepath.Walk propagates only
non-SkipDir callback errors, so the embedded walk always completes. -/

/-- A filesystem node as visited by filepath.Walk (children in the lexical
order Walk uses). -/
inductive FSNode where
  | file (name : String)
  | dir (name : String) (children : List FSNode)

def nodeName : FSNode → String
  | .file n => n
  | .dir n _ => n

/-- The two values the FindProjects walk callback ever returns: nil or
filepath.SkipDir. -/
inductive FnRes where
  | cont
  | skipDir

/-- Environment of the walk: relative paths (component lists, root is the
empty list) whose lstat/readDir errors, and the status-query outcomes used
by UpdateStatus for each project directory. -/
structure WalkEnv where
  errPaths : List (List String)
  statusOf : String → StatusEnv

/-- Path join with the separator slash, as filepath.Walk builds paths. -/
def joinPath (root : String) (comps : List String) : String :=
  comps.foldl (fun acc c => acc ++ "/" ++ c) root

/-- filepath.Base for the slash-joined paths the walk builds. -/
def baseName (path : String) : String :=
  (((listSplitOnChar '/' path.toList).map List.asString).getLastD path)

/-- The exact-name match of the callback (source line 70). -/
def composeFileName (name : String) : Bool :=
  name = "docker-compose.yml" || name = "docker-compose.yaml" ||
  name = "compose.yml" || name = "compose.yaml"

/-- The file-acceptance predicate of the callback: one of the four accepted
compose file names, then not excluded by the control-substring check
(source lines 70-74). -/
def discoveryAccepts (name : String) : Bool :=
  if composeFileName name then
    if strContains name "control" then false else true
  else false

/-- The walk callback of FindProjects (source lines 52-93) on a non-errored
entry: depth pruning, compose-name match, control-file exclusion, project
construction and status resolution (UpdateStatus never fails, so a matched
project is always appended).  comps is the relative path of the entry,
empty for the root (whose filepath.Rel is the dot, giving depth 1). -/
def walkFn (env : WalkEnv) (searchDir : String) (maxDepth : Nat) (now : Int)
    (comps : List String) (name : String) (isDir : Bool)
    (projects : List Project) : List Project × FnRes :=
  let depth := if comps.isEmpty then 1 else comps.length
  if depth > maxDepth then
    if isDir then (projects, .skipDir) else (projects, .cont)
  else
    if !isDir then
      if composeFileName name then
        if strContains name "control" then (projects, .cont)
        else
          let path := joinPath searchDir comps
          let projectDir := joinPath searchDir comps.dropLast
          let projectName := baseName projectDir
          let project : Project :=
            { name := projectName, path := projectDir, composeFile := path,
              status := "", runningContainers := 0, images := [],
              imageInfo := [], hasUpdates := false, lastUpdated := now }
          (projects ++ [UpdateStatus (env.statusOf projectDir) project], .cont)
      else (projects, .cont)
    else (projects, .cont)

mutual

/-- The walk over one node: an errored entry is skipped (the callback
returns nil on a non-nil err, and an unreadable directory cannot be
descended into); otherwise the callback runs and, for a directory not
pruned by SkipDir, the children are walked. -/
def walkNode (env : WalkEnv) (searchDir : String) (maxDepth : Nat) (now : Int) :
    FSNode → List String → List Project → List Project
  | .file name, comps, acc =>
    if env.errPaths.contains comps then acc
    else (walkFn env searchDir maxDepth now comps name false acc).1
  | .dir name children, comps, acc =>
    if env.errPaths.contains comps then acc
    else
      match walkFn env searchDir maxDepth now comps name true acc with
      | (acc', .skipDir) => acc'
      | (acc', .cont) => walkChildren env searchDir maxDepth now children comps acc'

/-- The walk over the children of a directory, in order. -/
def walkChildren (env : WalkEnv) (searchDir : String) (maxDepth : Nat) (now : Int) :
    List FSNode → List String → List Project → List Project
  | [], _, acc => acc
  | c :: cs, comps, acc =>
    walkChildren env searchDir maxDepth now cs comps
      (walkNode env searchDir maxDepth now c (comps ++ [nodeName c]) acc)

end

/-- The two error outcomes FindProjects can construct (source lines
96-102): the wrapped walk error and the no-projects-found error. -/
inductive FindErr where
  | walkFailed (msg : String)
  | notFound (dir : String)
deriving DecidableEq, Repr

/-- FindProjects (source lines 49-105).  The callback returns only nil and
SkipDir, and filepath.Walk propagates only non-SkipDir callback errors, so
the walk always returns nil and the wrapped-error branch (source lines
96-98) cannot fire; the embedding reflects this by testing only the
zero-projects condition. -/
def FindProjects (env : WalkEnv) (searchDir : String) (maxDepth : Nat) (now : Int)
    (root : FSNode) : Except FindErr (List Project) :=
  let projects := walkNode env searchDir maxDepth now root [] []
  if projects.length = 0 then .error (.notFound searchDir)
  else .ok projects

/-! ### Claim C7 — the two-project discovery scenario -/

/-- The directory tree of the C7 scenario: app1/docker-compose.yml and
app2/compose.yaml at depth 1. -/
def c7Tree : FSNode :=
  .dir "docker"
    [.dir "app1" [.file "docker-compose.yml"],
     .dir "app2" [.file "compose.yaml"]]

/-- Walk environment of the C7 scenario: no access errors, both status
queries resolving to stopped (status resolution always succeeds in the
source, so the claim hypothesis holds for any outcome). -/
def c7Env : WalkEnv :=
  { errPaths := [], statusOf := fun _ => ⟨none, ""⟩ }

/-- C7: on the tree with app1/docker-compose.yml and app2/compose.yaml at
depth 1 and maxDepth 10, FindProjects returns exactly two projects, named
app1 and app2 after the immediate parent directories of the compose files
(status resolution, which never fails in the source, succeeds for both). -/
theorem findProjects_two_apps :
    (FindProjects c7Env "/home/user/docker" 10 0 c7Tree).map
        (fun ps => (ps.length, ps.map (fun p => p.name)))
      = .ok (2, ["app1", "app2"]) := rfl

/-! ### Claim C8 — discovery error policy -/

/-- C8 (amended): FindProjects returns the not-found error exactly when the
walk accumulates zero projects; it NEVER returns the wrapped walk error
(the callback swallows every per-entry error, including a failure on the
root itself, so the traversal always completes); and every errored entry is
silently skipped, leaving the accumulated projects unchanged. -/
theorem findProjects_error_policy (env : WalkEnv) (searchDir : String) (maxDepth : Nat)
    (now : Int) (root : FSNode) :
    (FindProjects env searchDir maxDepth now root = .error (.notFound searchDir)
       ↔ walkNode env searchDir maxDepth now root [] [] = [])
    ∧ (∀ msg, FindProjects env searchDir maxDepth now root ≠ .error (.walkFailed msg))
    ∧ (∀ (node : FSNode) (comps : List String) (acc : List Project),
        env.errPaths.contains comps = true →
        walkNode env searchDir maxDepth now node comps acc = acc) := by
  refine ⟨?_, ?_, ?_⟩
  · unfold FindProjects
    cases hwalk : walkNode env searchDir maxDepth now root [] [] with
    | nil => simp [hwalk]
    | cons p rest => simp [hwalk]
  · intro msg
    unfold FindProjects
    cases hwalk : walkNode env searchDir maxDepth now root [] [] with
    | nil => simp [hwalk]
    | cons p rest => simp [hwalk]
  · intro node comps acc herr
    have hmem : comps ∈ env.errPaths := by simpa using herr
    cases node with
    | file name => simp [walkNode, hmem]
    | dir name children => simp [walkNode, hmem]

/-- Environment in which the root itself cannot be accessed. -/
def c8Env : WalkEnv :=
  { errPaths := [[]], statusOf := fun _ => ⟨none, ""⟩ }

/-- Tree that does contain a project, used to show the failure mode. -/
def c8Tree : FSNode :=
  .dir "docker" [.dir "app1" [.file "docker-compose.yml"]]

/-- Witness for C8 (amended): the skip conjunct applied to the errored
root — the walk over it contributes nothing. -/
theorem findProjects_error_policy_witness :
    walkNode c8Env "/d" 10 0 c8Tree [] [] = [] :=
  (findProjects_error_policy c8Env "/d" 10 0 c8Tree).2.2 c8Tree [] [] (by decide)

/-- C8 counterexample: when the traversal itself fails (the root directory
is inaccessible, so discovery cannot even start), FindProjects still
returns the not-found error, not the wrapped I/O error the claim requires:
the callback swallows the root error too, so the wrapped-error branch is
unreachable. -/
theorem findProjects_root_error_not_wrapped :
    FindProjects c8Env "/d" 10 0 c8Tree = .error (.notFound "/d") := rfl

/-! ### Claim C10 — the control-file exclusion is vacuous -/

/-- C10: the discovery predicate with the control-substring exclusion
equals the bare four-name match for every file name: the exclusion is only
evaluated after the name matched one of the four accepted compose file
names, none of which contains the substring control, so it never excludes
anything. -/
theorem control_check_vacuous (name : String) :
    discoveryAccepts name = composeFileName name := by
  by_cases h1 : name = "docker-compose.yml"
  · subst h1; decide
  · by_cases h2 : name = "docker-compose.yaml"
    · subst h2; decide
    · by_cases h3 : name = "compose.yml"
      · subst h3; decide
      · by_cases h4 : name = "compose.yaml"
        · subst h4; decide
        · simp [discoveryAccepts, composeFileName, h1, h2, h3, h4]

/-! ### Claim C6 — error sanitization of a failing pull -/

/-- A single-quote character, written by code point. -/
def squote : String := String.singleton (Char.ofNat 39)

/-- The final traceback line of the scenario: KeyError with the quoted
ContainerConfig key. -/
def keyErrLine : String := "KeyError: " ++ squote ++ "ContainerConfig" ++ squote

/-- Helper: a line that is empty after trimming, skippable, traceback noise
or without an Error:/Exception: extraction leaves the scan on the remaining
lines (possibly extending the keyword accumulator). -/
theorem scanLines_cons_pass (l : String) (ls : List String)
    (h : goTrim l = "" ∨ isSkippableInfo (goTrim l) = true ∨
         isTracebackNoise (goTrim l) = true ∨ extractErrorLine (goTrim l) = none)
    (acc : List String) :
    scanLines (l :: ls) acc = scanLines ls acc ∨
    scanLines (l :: ls) acc = scanLines ls (acc ++ [goTrim l]) := by
  by_cases h1 : goTrim l = ""
  · left; simp [scanLines, h1]
  · by_cases h2 : isSkippableInfo (goTrim l) = true
    · left; simp [scanLines, h1, h2]
    · by_cases h3 : isTracebackNoise (goTrim l) = true
      · left; simp [scanLines, h1, h2, h3]
      · have h4 : extractErrorLine (goTrim l) = none := by tauto
        by_cases h5 : isKeywordError (goTrim l) = true
        · right; simp [scanLines, h1, h2, h3, h4, h5]
        · left; simp [scanLines, h1, h2, h3, h4, h5]

/-- Helper: when every line before the final KeyError line is discarded or
merely accumulated by the scan, the Error:-extraction of the final line
replaces everything and stops the scan, whatever was accumulated. -/
theorem scanLines_keyerr (pre : List String)
    (hpre : ∀ l ∈ pre, goTrim l = "" ∨ isSkippableInfo (goTrim l) = true ∨
        isTracebackNoise (goTrim l) = true ∨ extractErrorLine (goTrim l) = none) :
    ∀ acc, scanLines (pre ++ [keyErrLine]) acc = [keyErrLine] := by
  induction pre with
  | nil =>
    intro acc
    have h1 : goTrim keyErrLine = keyErrLine := by decide
    have h2 : keyErrLine ≠ "" := by decide
    have h3 : isSkippableInfo keyErrLine = false := by decide
    have h4 : isTracebackNoise keyErrLine = false := by decide
    have h5 : extractErrorLine keyErrLine = some keyErrLine := by decide
    simp [scanLines, h1, h2, h3, h4, h5]
  | cons l rest ih =>
    intro acc
    have hl := hpre l (by simp)
    have hrest : ∀ x ∈ rest, goTrim x = "" ∨ isSkippableInfo (goTrim x) = true ∨
        isTracebackNoise (goTrim x) = true ∨ extractErrorLine (goTrim x) = none :=
      fun x hx => hpre x (by simp [hx])
    rcases scanLines_cons_pass l (rest ++ [keyErrLine]) hl acc with he | he
    · rw [List.cons_append, he]; exact ih hrest acc
    · rw [List.cons_append, he]; exact ih hrest (acc ++ [goTrim l])

/-- Helper: cleanDockerError on an output whose trimmed split ends in the
KeyError line and whose earlier lines are all discarded by the scan. -/
theorem cleanDockerError_keyerr (operation output errStr : String) (pre : List String)
    (hsplit : goSplitLines (goTrim output) = pre ++ [keyErrLine])
    (hpre : ∀ l ∈ pre, goTrim l = "" ∨ isSkippableInfo (goTrim l) = true ∨
        isTracebackNoise (goTrim l) = true ∨ extractErrorLine (goTrim l) = none) :
    cleanDockerError operation output errStr = operation ++ " failed: " ++ keyErrLine := by
  have hdoc : strContains keyErrLine "docker" = false := by decide
  simp only [cleanDockerError, hsplit, scanLines_keyerr pre hpre]
  simp [hdoc]

/-- C6 (amended): for a failing pull whose combined tool output ends in the
line KeyError: (quote)ContainerConfig(quote) and whose earlier lines are
all ones the sanitizer discards (empty, progress/informational, traceback
noise, or without an Error:/Exception: extraction — in particular every
line of an ordinary embedded Python traceback), PullOnly surfaces exactly
the single-line error pull failed: KeyError: (quote)ContainerConfig(quote),
which ends in the KeyError line and contains no newline; an earlier
surviving Error:/Exception: line would instead be surfaced (see the
counterexample), so the restriction on earlier lines is necessary. -/
theorem pullOnly_keyerror_sanitized (p : Project) (st : StatusEnv)
    (output errStr : String) (pre : List String)
    (hsplit : goSplitLines (goTrim output) = pre ++ [keyErrLine])
    (hpre : ∀ l ∈ pre, goTrim l = "" ∨ isSkippableInfo (goTrim l) = true ∨
        isTracebackNoise (goTrim l) = true ∨ extractErrorLine (goTrim l) = none) :
    PullOnly ⟨some (output, errStr), none, st⟩ p
      = .error ("pull failed: " ++ keyErrLine)
    ∧ strEndsWith ("pull failed: " ++ keyErrLine) keyErrLine = true
    ∧ strContains ("pull failed: " ++ keyErrLine) "\n" = false := by
  refine ⟨?_, by decide, by decide⟩
  show Except.error (cleanDockerError "pull" output errStr) = _
  rw [cleanDockerError_keyerr "pull" output errStr pre hsplit hpre]
  rfl

/-- The concrete traceback output of the C6 scenario. -/
def tracebackOutput : String :=
  "Traceback (most recent call last):" ++ "\n" ++
  "  File /usr/lib/python3/compose/cli/main.py, line 81, in main" ++ "\n" ++
  keyErrLine

/-- Witness for C6 (amended): a pull failing with an ordinary embedded
traceback whose final line is the KeyError line is sanitized to the single
KeyError message. -/
theorem pullOnly_keyerror_sanitized_witness :
    PullOnly ⟨some (tracebackOutput, "exit status 1"), none, ⟨none, ""⟩⟩
        { name := "app", path := "/a", composeFile := "/a/docker-compose.yml",
          status := "stopped", runningContainers := 0, images := [],
          imageInfo := [], hasUpdates := false, lastUpdated := 0 }
      = .error ("pull failed: " ++ keyErrLine) :=
  (pullOnly_keyerror_sanitized _ ⟨none, ""⟩ tracebackOutput "exit status 1"
    ["Traceback (most recent call last):",
     "  File /usr/lib/python3/compose/cli/main.py, line 81, in main"]
    (by decide) (by decide)).1

/-- An output whose final line is the KeyError line but which carries an
earlier Error: line. -/
def hijackedOutput : String :=
  "ValueError: boom" ++ "\n" ++ "Traceback (most recent call last):" ++ "\n" ++ keyErrLine

/-- C6 counterexample: a failing pull whose tool output contains an
embedded traceback and ends in the KeyError line, yet the error surfaced
by PullOnly is the earlier ValueError line — the scan stops at the FIRST
Error:/Exception: match, so the returned message does not end in
KeyError: (quote)ContainerConfig(quote) as the claim requires for every
such output. -/
theorem pullOnly_keyerror_counterexample :
    (goSplitLines (goTrim hijackedOutput)).getLastD "" = keyErrLine
    ∧ strContains hijackedOutput "Traceback" = true
    ∧ PullOnly ⟨some (hijackedOutput, "exit status 1"), none, ⟨none, ""⟩⟩
        { name := "app", path := "/a", composeFile := "/a/docker-compose.yml",
          status := "stopped", runningContainers := 0, images := [],
          imageInfo := [], hasUpdates := false, lastUpdated := 0 }
        = .error "pull failed: ValueError: boom"
    ∧ strEndsWith "pull failed: ValueError: boom" keyErrLine = false := by
  refine ⟨by decide, by decide, by rfl, by decide⟩

/-! ### Claim C2 — the aggregate has-updates invariant -/

/-- The ImageInfo record one UpdateImageInfo loop iteration writes
(restatement of the three branches of processImage, used to characterize
the fold). -/
def entryOf (e : ImageCheckEnv) (imageName : String) : ImageInfo :=
  let currentTag := currentTagOf imageName
  if e.localErr = true ∨ e.localID = "" then ⟨imageName, currentTag, "not pulled", true⟩
  else
    match e.pull with
    | .timeout => ⟨imageName, currentTag, "timeout", false⟩
    | .ok latestID =>
      let hasUpdate := e.localID ≠ latestID && latestID ≠ ""
      ⟨imageName, currentTag, if hasUpdate then currentTag ++ " (newer)" else currentTag, hasUpdate⟩
    | .failed => ⟨imageName, currentTag, currentTag, false⟩

theorem processImage_eq (e : ImageCheckEnv) (name : String)
    (st : List (String × ImageInfo) × Bool) :
    processImage e name st
      = (mapInsert name (entryOf e name) st.1, st.2 || (entryOf e name).hasUpdate) := by
  by_cases h : e.localErr = true ∨ e.localID = ""
  · simp [processImage, entryOf, h]
  · cases hp : e.pull with
    | timeout => simp [processImage, entryOf, h, hp]
    | ok latestID => simp [processImage, entryOf, h, hp]
    | failed => simp [processImage, entryOf, h, hp]

theorem mapInsert_fresh (k : String) (v : ImageInfo) :
    ∀ l : List (String × ImageInfo), (∀ kv ∈ l, kv.1 ≠ k) → mapInsert k v l = l ++ [(k, v)] := by
  intro l
  induction l with
  | nil => intro _; rfl
  | cons kv rest ih =>
    intro h
    have hne : kv.1 ≠ k := h kv (by simp)
    simp only [mapInsert, if_neg hne]
    rw [ih (fun x hx => h x (by simp [hx]))]
    simp

/-- Helper: over a list of loop positions with pairwise-distinct image
names, all fresh for the accumulated map, the hasUpdates accumulator of
the UpdateImageInfo fold equals the any-entry-has-update predicate of the
accumulated map. -/
theorem processFold_any (checks : Nat → ImageCheckEnv) :
    ∀ (pairs : List (Nat × String)) (info : List (String × ImageInfo)) (flag : Bool),
      (pairs.map Prod.snd).Nodup →
      (∀ pr ∈ pairs, ∀ kv ∈ info, kv.1 ≠ pr.2) →
      flag = info.any (fun e => e.2.hasUpdate) →
      (pairs.foldl (fun st pair => processImage (checks pair.1) pair.2 st) (info, flag)).2
        = (pairs.foldl (fun st pair => processImage (checks pair.1) pair.2 st) (info, flag)).1.any
            (fun e => e.2.hasUpdate) := by
  intro pairs
  induction pairs with
  | nil => intro info flag _ _ hflag; simpa using hflag
  | cons pr rest ih =>
    intro info flag hnodup hfresh hflag
    have hnodup' : pr.2 ∉ rest.map Prod.snd ∧ (rest.map Prod.snd).Nodup := by
      rw [List.map_cons] at hnodup
      exact List.nodup_cons.mp hnodup
    have hfr : ∀ kv ∈ info, kv.1 ≠ pr.2 := hfresh pr (by simp)
    have hstep : processImage (checks pr.1) pr.2 (info, flag)
        = (info ++ [(pr.2, entryOf (checks pr.1) pr.2)],
           flag || (entryOf (checks pr.1) pr.2).hasUpdate) := by
      rw [processImage_eq]
      rw [mapInsert_fresh pr.2 (entryOf (checks pr.1) pr.2) info hfr]
    simp only [List.foldl_cons, hstep]
    apply ih
    · exact hnodup'.2
    · intro x hx kv hkv
      rcases List.mem_append.mp hkv with hin | hone
      · exact hfresh x (by simp [hx]) kv hin
      · have hkx : kv = (pr.2, entryOf (checks pr.1) pr.2) := by simpa using hone
        have hxmem : x.2 ∈ rest.map Prod.snd := List.mem_map_of_mem Prod.snd hx
        rw [hkx]
        intro hEq
        have hEq' : pr.2 = x.2 := hEq
        exact hnodup'.1 (by rw [hEq']; exact hxmem)
    · rw [hflag]
      simp [Bool.or_comm]

/-- C2 (amended): after a successful UpdateImageInfo run starting from an
empty per-image map, with a duplicate-free current image list, the
aggregate hasUpdates flag is true iff at least one entry of the resulting
ImageInfo map has hasUpdate true.  The restrictions are necessary: Update
clears the aggregate flag without touching the map (see the
counterexample), and stale pre-existing entries outside the current image
list are never reconciled. -/
theorem updateImageInfo_hasUpdates_iff (env : UpdateInfoEnv) (p q : Project) (out : String)
    (hout : env.configImages = some out)
    (hnodup : (parseImagesOutput out).Nodup)
    (hempty : p.imageInfo = [])
    (hq : UpdateImageInfo env p = some q) :
    q.hasUpdates = q.imageInfo.any (fun e => e.2.hasUpdate) := by
  unfold UpdateImageInfo at hq
  rw [hout] at hq
  simp only [Option.some.injEq] at hq
  subst hq
  simp only [hempty]
  apply processFold_any
  · rw [List.enum_map_snd]
    exact hnodup
  · intro pr _ kv hkv
    simp at hkv
  · simp

/-- Concrete environment for the UpdateImageInfo witness: two images, the
first with a changed ID after pull, the second unchanged. -/
def c2wEnv : UpdateInfoEnv :=
  { configImages := some ("redis:7" ++ "\n" ++ "nginx:latest"),
    check := fun i => if i = 0 then ⟨false, "aaa", .ok "bbb"⟩ else ⟨false, "ccc", .ok "ccc"⟩ }

def c2wProj : Project :=
  { name := "stack", path := "/s", composeFile := "/s/compose.yaml",
    status := "stopped", runningContainers := 0, images := [],
    imageInfo := [], hasUpdates := false, lastUpdated := 0 }

def c2wResult : Project :=
  { name := "stack", path := "/s", composeFile := "/s/compose.yaml",
    status := "stopped", runningContainers := 0,
    images := ["redis:7", "nginx:latest"],
    imageInfo := [("redis:7", ⟨"redis:7", "7", "7 (newer)", true⟩),
                  ("nginx:latest", ⟨"nginx:latest", "latest", "latest", false⟩)],
    hasUpdates := true, lastUpdated := 0 }

/-- Witness for C2 (amended) at the concrete two-image environment. -/
theorem updateImageInfo_hasUpdates_iff_witness :
    c2wResult.hasUpdates = c2wResult.imageInfo.any (fun e => e.2.hasUpdate) :=
  updateImageInfo_hasUpdates_iff c2wEnv c2wProj c2wResult
    ("redis:7" ++ "\n" ++ "nginx:latest") rfl (by decide) rfl (by decide)

/-- C2 counterexample: a successful Update clears the aggregate hasUpdates
flag but leaves the ImageInfo map untouched, so afterwards the flag is
false while an entry still has hasUpdate true — the claimed invariant
fails after the engine operation Update. -/
theorem update_breaks_hasUpdates_iff :
    (Update ⟨none, none, ⟨none, ""⟩⟩ 100
        { name := "app", path := "/a", composeFile := "/a/docker-compose.yml",
          status := "running:1", runningContainers := 1, images := ["redis:latest"],
          imageInfo := [("redis:latest",
            ⟨"redis:latest", "latest", "latest (newer)", true⟩)],
          hasUpdates := true, lastUpdated := 0 }).map
      (fun q => (q.hasUpdates, q.imageInfo.any (fun e => e.2.hasUpdate)))
      = .ok (false, true) := rfl

/-- Witness for the C4 failure-policy theorem at concrete files: unreadable,
expired, malformed (a bare JSON number), and the exact-threshold file. -/
theorem loadFromCache_failure_policy_witness :
    LoadFromCache (.unreadable 0) 5 5 = .error "failed to read cache"
    ∧ LoadFromCache (.present (-6) (Json.num 3)) 5 5 = .error "cache expired"
    ∧ LoadFromCache (.present 0 (Json.num 3)) 5 5 = .error "failed to unmarshal cache"
    ∧ LoadFromCache (.present 0 (Json.num 3)) 5 5 ≠ .error "cache expired" :=
  ⟨(loadFromCache_failure_policy 5 5 0 (Json.num 3)).2.1 (by decide),
   (loadFromCache_failure_policy 5 5 (-6) (Json.num 3)).2.2.1 (by decide),
   (loadFromCache_failure_policy 5 5 0 (Json.num 3)).2.2.2.1 (by decide) rfl,
   (loadFromCache_failure_policy 5 5 0 (Json.num 3)).2.2.2.2 (by decide)⟩

end Docker

namespace UI

/-! ### Update orchestrator — parallel update choreography (model.go)

The Bubble Tea event loop is single-threaded: the dispatched tasks compute
off-loop and apply their results only when their updateCompleteMsg is
handled, so a run of the choreography is the initial state set up by the
screen handler (model.go lines 481-490 / 510-518 / 533-541: every selected
index pending, counters reset, loading true), the synchronous dispatch of
performUpdates (lines 1752-1799: every in-range selected index marked
updating, one task per index, each producing exactly one
updateCompleteMsg), and then the fold of the updateCompleteMsg handler
(lines 232-248) over the completion messages in arrival order.  Go maps
with int keys are association lists with the missing-key default of the
empty string. -/

/-- The updateCompleteMsg fields the handler reads (model.go lines
1785-1790). -/
structure UpdateCompleteMsg where
  projectIndex : Nat
  success : Bool
  errText : String
deriving DecidableEq, Repr

/-- The Model fields driven by the parallel-update choreography (model.go
lines 40-54): per-project status and result maps, completion counters and
the loading flag. -/
structure UpdateUIState where
  projectUpdateStatus : List (Nat × String)
  projectUpdateResult : List (Nat × String)
  updatesCompleted : Nat
  updatesTotal : Nat
  loading : Bool
deriving DecidableEq, Repr

/-- Go map assignment for the int-keyed maps. -/
def natMapInsert (k : Nat) (v : String) : List (Nat × String) → List (Nat × String)
  | [] => [(k, v)]
  | (k', v') :: rest => if k' = k then (k, v) :: rest else (k', v') :: natMapInsert k v rest

/-- Go map read with the zero-value default of the empty string. -/
def natMapGet : List (Nat × String) → Nat → String
  | [], _ => ""
  | (k', v) :: rest, k => if k' = k then v else natMapGet rest k

/-- The state set up on entering ScreenUpdating (model.go lines 481-490):
every selected index pending with an empty result, counters reset to the
selected count, loading true. -/
def initUpdating (selected : List Nat) : UpdateUIState :=
  { projectUpdateStatus := selected.foldl (fun m i => natMapInsert i "pending" m) [],
    projectUpdateResult := selected.foldl (fun m i => natMapInsert i "" m) [],
    updatesCompleted := 0,
    updatesTotal := selected.length,
    loading := true }

/-- The synchronous part of performUpdates (model.go lines 1756-1762):
every selected index below the project count is marked updating
(out-of-range indices are skipped by the continue). -/
def performUpdatesDispatch (nProjects : Nat) (selected : List Nat)
    (st : UpdateUIState) : UpdateUIState :=
  let newStatus :=
    selected.foldl (fun m i => if nProjects ≤ i then m else natMapInsert i "updating" m)
      st.projectUpdateStatus
  { st with projectUpdateStatus := newStatus }

/-- The updateCompleteMsg handler (model.go lines 232-248): increment the
completed count, record the terminal status and result for the project,
and clear loading when the completed count has reached the total. -/
def updateCompleteStep (msg : UpdateCompleteMsg) (st : UpdateUIState) : UpdateUIState :=
  let st := { st with updatesCompleted := st.updatesCompleted + 1 }
  let st :=
    if msg.success then
      { st with
        projectUpdateStatus := natMapInsert msg.projectIndex "success" st.projectUpdateStatus,
        projectUpdateResult := natMapInsert msg.projectIndex "OK" st.projectUpdateResult }
    else
      { st with
        projectUpdateStatus := natMapInsert msg.projectIndex "failed" st.projectUpdateStatus,
        projectUpdateResult :=
          natMapInsert msg.projectIndex ("failed: " ++ msg.errText) st.projectUpdateResult }
  if st.updatesTotal ≤ st.updatesCompleted then { st with loading := false } else st

/-- Handling a sequence of completion messages in arrival order. -/
def applyMsgs (ms : List UpdateCompleteMsg) (st : UpdateUIState) : UpdateUIState :=
  ms.foldl (fun s m => updateCompleteStep m s) st

/-- The state at the start of the parallel batch: ScreenUpdating set up,
then performUpdates dispatched. -/
def updatingStart (nProjects : Nat) (selected : List Nat) : UpdateUIState :=
  performUpdatesDispatch nProjects selected (initUpdating selected)

/-- The legal per-project transitions of the choreography: stay, or move
from updating to one of the two terminal statuses. -/
def allowedTransition (s t : String) : Prop :=
  t = s ∨ (s = "updating" ∧ (t = "success" ∨ t = "failed"))

theorem natMapGet_insert_self (k : Nat) (v : String) :
    ∀ m, natMapGet (natMapInsert k v m) k = v := by
  intro m
  induction m with
  | nil => simp [natMapInsert, natMapGet]
  | cons kv rest ih =>
    rcases kv with ⟨k', v'⟩
    by_cases h : k' = k
    · subst h
      simp [natMapInsert, natMapGet]
    · simp [natMapInsert, natMapGet, h, ih]

theorem natMapGet_insert_other (k : Nat) (v : String) (j : Nat) (hne : j ≠ k) :
    ∀ m, natMapGet (natMapInsert k v m) j = natMapGet m j := by
  have hkj : k ≠ j := fun h => hne h.symm
  intro m
  induction m with
  | nil => simp [natMapInsert, natMapGet, hkj]
  | cons kv rest ih =>
    rcases kv with ⟨k', v'⟩
    by_cases h : k' = k
    · subst h
      simp [natMapInsert, natMapGet, hkj]
    · by_cases h2 : k' = j
      · simp [natMapInsert, natMapGet, h, h2, hne, hkj]
      · simp [natMapInsert, natMapGet, h, h2, ih]

/-- A fold of constant-value inserts reads back the constant on the
inserted keys and the original map elsewhere. -/
theorem foldl_insertConst_get (c : String) :
    ∀ (l : List Nat) (m : List (Nat × String)) (i : Nat),
      natMapGet (l.foldl (fun m k => natMapInsert k c m) m) i
        = if i ∈ l then c else natMapGet m i := by
  intro l
  induction l with
  | nil => intro m i; simp
  | cons k rest ih =>
    intro m i
    simp only [List.foldl_cons]
    rw [ih]
    by_cases hmem : i ∈ rest
    · simp [hmem]
    · by_cases hk : i = k
      · simp [hmem, hk, natMapGet_insert_self]
      · simp [hmem, hk, natMapGet_insert_other k c i hk]

/-- On an all-in-range selection the guarded dispatch fold behaves as a
constant-value insert fold. -/
theorem dispatch_fold_get (nProjects : Nat) :
    ∀ (l : List Nat), (∀ i ∈ l, i < nProjects) →
      ∀ (m : List (Nat × String)) (i : Nat),
        natMapGet (l.foldl
            (fun m k => if nProjects ≤ k then m else natMapInsert k "updating" m) m) i
          = if i ∈ l then "updating" else natMapGet m i := by
  intro l
  induction l with
  | nil => intro _ m i; simp
  | cons k rest ih =>
    intro hra m i
    have hk : ¬ (nProjects ≤ k) := by
      have := hra k (by simp)
      omega
    simp only [List.foldl_cons, if_neg hk]
    rw [ih (fun x hx => hra x (by simp [hx]))]
    by_cases hmem : i ∈ rest
    · simp [hmem]
    · by_cases hik : i = k
      · simp [hmem, hik, natMapGet_insert_self]
      · simp [hmem, hik, natMapGet_insert_other k "updating" i hik]

theorem updatingStart_fields (nProjects : Nat) (selected : List Nat) :
    (updatingStart nProjects selected).updatesCompleted = 0
    ∧ (updatingStart nProjects selected).updatesTotal = selected.length
    ∧ (updatingStart nProjects selected).loading = true := by
  refine ⟨rfl, rfl, rfl⟩

theorem initUpdating_status (selected : List Nat) (i : Nat) :
    natMapGet (initUpdating selected).projectUpdateStatus i
      = if i ∈ selected then "pending" else "" := by
  simp only [initUpdating]
  rw [foldl_insertConst_get]
  by_cases hmem : i ∈ selected <;> simp [hmem, natMapGet]

theorem updatingStart_status (nProjects : Nat) (selected : List Nat)
    (hrange : ∀ i ∈ selected, i < nProjects) (i : Nat) :
    natMapGet (updatingStart nProjects selected).projectUpdateStatus i
      = if i ∈ selected then "updating" else "" := by
  have hunfold : (updatingStart nProjects selected).projectUpdateStatus
      = selected.foldl (fun m i => if nProjects ≤ i then m else natMapInsert i "updating" m)
          (initUpdating selected).projectUpdateStatus := rfl
  rw [hunfold, dispatch_fold_get nProjects selected hrange]
  by_cases hmem : i ∈ selected
  · simp [hmem]
  · simp only [if_neg hmem]
    rw [initUpdating_status selected i]
    simp [hmem]

/-- The fields of one handler step. -/
theorem updateCompleteStep_spec (msg : UpdateCompleteMsg) (st : UpdateUIState) :
    (updateCompleteStep msg st).updatesCompleted = st.updatesCompleted + 1
    ∧ (updateCompleteStep msg st).updatesTotal = st.updatesTotal
    ∧ (∀ i, natMapGet (updateCompleteStep msg st).projectUpdateStatus i
        = if i = msg.projectIndex then (if msg.success then "success" else "failed")
          else natMapGet st.projectUpdateStatus i)
    ∧ ((updateCompleteStep msg st).loading
        = if st.updatesTotal ≤ st.updatesCompleted + 1 then false else st.loading) := by
  by_cases hs : msg.success = true
  · refine ⟨?_, ?_, ?_, ?_⟩
    · by_cases ht : st.updatesTotal ≤ st.updatesCompleted + 1 <;>
        simp [updateCompleteStep, hs, ht]
    · by_cases ht : st.updatesTotal ≤ st.updatesCompleted + 1 <;>
        simp [updateCompleteStep, hs, ht]
    · intro i
      by_cases hi : i = msg.projectIndex
      · subst hi
        by_cases ht : st.updatesTotal ≤ st.updatesCompleted + 1 <;>
          simp [updateCompleteStep, hs, ht, natMapGet_insert_self]
      · by_cases ht : st.updatesTotal ≤ st.updatesCompleted + 1 <;>
          simp [updateCompleteStep, hs, ht, hi, natMapGet_insert_other _ _ _ hi]
    · by_cases ht : st.updatesTotal ≤ st.updatesCompleted + 1 <;>
        simp [updateCompleteStep, hs, ht]
  · have hs' : msg.success = false := by
      cases h : msg.success
      · rfl
      · exact absurd h hs
    refine ⟨?_, ?_, ?_, ?_⟩
    · by_cases ht : st.updatesTotal ≤ st.updatesCompleted + 1 <;>
        simp [updateCompleteStep, hs', ht]
    · by_cases ht : st.updatesTotal ≤ st.updatesCompleted + 1 <;>
        simp [updateCompleteStep, hs', ht]
    · intro i
      by_cases hi : i = msg.projectIndex
      · subst hi
        by_cases ht : st.updatesTotal ≤ st.updatesCompleted + 1 <;>
          simp [updateCompleteStep, hs', ht, natMapGet_insert_self]
      · by_cases ht : st.updatesTotal ≤ st.updatesCompleted + 1 <;>
          simp [updateCompleteStep, hs', ht, hi, natMapGet_insert_other _ _ _ hi]
    · by_cases ht : st.updatesTotal ≤ st.updatesCompleted + 1 <;>
        simp [updateCompleteStep, hs', ht]

/-- The cumulative effect of handling a duplicate-free batch of completion
messages: the completed count advances by one per message, the total is
untouched, untouched indices keep their status, each handled message
leaves its terminal status, and loading clears exactly when the count
reaches the total. -/
theorem applyMsgs_spec :
    ∀ (ms : List UpdateCompleteMsg) (st : UpdateUIState),
      (ms.map (fun m => m.projectIndex)).Nodup →
      ((applyMsgs ms st).updatesCompleted = st.updatesCompleted + ms.length)
      ∧ ((applyMsgs ms st).updatesTotal = st.updatesTotal)
      ∧ (∀ i, i ∉ ms.map (fun m => m.projectIndex) →
           natMapGet (applyMsgs ms st).projectUpdateStatus i
             = natMapGet st.projectUpdateStatus i)
      ∧ (∀ m ∈ ms, natMapGet (applyMsgs ms st).projectUpdateStatus m.projectIndex
           = (if m.success then "success" else "failed"))
      ∧ ((applyMsgs ms st).loading
           = if ms.length = 0 then st.loading
             else (if st.updatesTotal ≤ st.updatesCompleted + ms.length then false
                   else st.loading)) := by
  intro ms
  induction ms with
  | nil =>
    intro st _
    exact ⟨rfl, rfl, fun i _ => rfl, fun m hm => absurd hm (by simp), by simp [applyMsgs]⟩
  | cons m rest ih =>
    intro st hnodup
    have hnodup' : m.projectIndex ∉ rest.map (fun x => x.projectIndex)
        ∧ (rest.map (fun x => x.projectIndex)).Nodup := by
      rw [List.map_cons] at hnodup
      exact List.nodup_cons.mp hnodup
    have happly : applyMsgs (m :: rest) st = applyMsgs rest (updateCompleteStep m st) := rfl
    obtain ⟨hc, ht, hother, hdone, hload⟩ := ih (updateCompleteStep m st) hnodup'.2
    obtain ⟨sc, stt, sstat, sload⟩ := updateCompleteStep_spec m st
    refine ⟨?_, ?_, ?_, ?_, ?_⟩
    · rw [happly, hc, sc]
      simp only [List.length_cons]
      omega
    · rw [happly, ht, stt]
    · intro i hi
      rw [List.map_cons, List.mem_cons] at hi
      push_neg at hi
      rw [happly, hother i hi.2, sstat i, if_neg hi.1]
    · intro m' hm'
      rcases List.mem_cons.mp hm' with hEq | htail
      · subst hEq
        rw [happly, hother m'.projectIndex hnodup'.1, sstat m'.projectIndex, if_pos rfl]
      · rw [happly]
        exact hdone m' htail
    · rw [happly, hload, stt, sc, sload]
      simp only [List.length_cons]
      split_ifs <;> first | rfl | omega | exact False.elim (by assumption)

/-- C9: in the parallel update choreography, for every nonempty selection
of pairwise-distinct in-range project indices (as built by the update-list
screen) and every arrival order of the per-task completion messages (one
message per dispatched task, their indices a permutation of the
selection): every selected index is pending after the screen-handler setup
and updating after the dispatch; each handler step moves each project
status only along pending to updating to success-or-failed (unrelated
indices unchanged); the completed count after k handled messages is
exactly k; and the loading flag is cleared exactly when the completed
count equals the selected count, regardless of how many tasks failed. -/
theorem performUpdates_choreography (nProjects : Nat) (selected : List Nat)
    (msgs : List UpdateCompleteMsg)
    (hnodup : selected.Nodup) (hne : selected ≠ [])
    (hrange : ∀ i ∈ selected, i < nProjects)
    (hperm : (msgs.map (fun m => m.projectIndex)).Perm selected) :
    (∀ i ∈ selected,
        natMapGet (initUpdating selected).projectUpdateStatus i = "pending"
        ∧ natMapGet (updatingStart nProjects selected).projectUpdateStatus i = "updating")
    ∧ (∀ k, k < msgs.length → ∀ i,
        allowedTransition
          (natMapGet (applyMsgs (msgs.take k)
            (updatingStart nProjects selected)).projectUpdateStatus i)
          (natMapGet (applyMsgs (msgs.take (k + 1))
            (updatingStart nProjects selected)).projectUpdateStatus i))
    ∧ (∀ k, k ≤ msgs.length →
        (applyMsgs (msgs.take k) (updatingStart nProjects selected)).updatesCompleted = k)
    ∧ (∀ k, k ≤ msgs.length →
        ((applyMsgs (msgs.take k) (updatingStart nProjects selected)).loading = false
          ↔ k = selected.length)) := by
  have hmnodup : (msgs.map (fun m => m.projectIndex)).Nodup := hperm.nodup_iff.mpr hnodup
  have hlen : msgs.length = selected.length := by
    have := hperm.length_eq
    simpa using this
  have hlen0 : selected.length ≠ 0 := by
    intro h
    exact hne (List.length_eq_zero.mp h)
  have hs0c : (updatingStart nProjects selected).updatesCompleted = 0 := rfl
  have hs0t : (updatingStart nProjects selected).updatesTotal = selected.length := rfl
  have hs0l : (updatingStart nProjects selected).loading = true := rfl
  have htknodup : ∀ k, ((msgs.take k).map (fun m => m.projectIndex)).Nodup := by
    intro k
    exact List.Nodup.sublist (List.Sublist.map _ (List.take_sublist k msgs)) hmnodup
  refine ⟨?_, ?_, ?_, ?_⟩
  · intro i hmem
    constructor
    · rw [initUpdating_status]; simp [hmem]
    · rw [updatingStart_status nProjects selected hrange]; simp [hmem]
  · intro k hk i
    have htake : msgs.take (k + 1) = msgs.take k ++ [msgs.get ⟨k, hk⟩] := by
      rw [List.take_succ, List.getElem?_eq_getElem hk]
      rfl
    have happ : applyMsgs (msgs.take (k + 1)) (updatingStart nProjects selected)
        = updateCompleteStep (msgs.get ⟨k, hk⟩)
            (applyMsgs (msgs.take k) (updatingStart nProjects selected)) := by
      simp only [applyMsgs]
      rw [htake, List.foldl_append]
      rfl
    obtain ⟨_, _, hstat, _⟩ := updateCompleteStep_spec (msgs.get ⟨k, hk⟩)
      (applyMsgs (msgs.take k) (updatingStart nProjects selected))
    by_cases hi : i = (msgs.get ⟨k, hk⟩).projectIndex
    · have hnotin : (msgs.get ⟨k, hk⟩).projectIndex
          ∉ (msgs.take k).map (fun x => x.projectIndex) := by
        have h2 : ((msgs.take k).map (fun x => x.projectIndex))
              ++ [(msgs.get ⟨k, hk⟩).projectIndex]
            = (msgs.take (k + 1)).map (fun x => x.projectIndex) := by
          rw [htake, List.map_append]
          rfl
        have h3 := htknodup (k + 1)
        rw [← h2] at h3
        have h4 := List.nodup_append.mp h3
        intro hmem
        exact (h4.2.2 hmem) (by simp)
      have hmmem : msgs.get ⟨k, hk⟩ ∈ msgs := List.get_mem msgs k hk
      have hsel : (msgs.get ⟨k, hk⟩).projectIndex ∈ selected :=
        hperm.mem_iff.mp (List.mem_map_of_mem _ hmmem)
      obtain ⟨_, _, hold, _, _⟩ := applyMsgs_spec (msgs.take k)
        (updatingStart nProjects selected) (htknodup k)
      have holdv : natMapGet (applyMsgs (msgs.take k)
            (updatingStart nProjects selected)).projectUpdateStatus
            (msgs.get ⟨k, hk⟩).projectIndex = "updating" := by
        rw [hold _ hnotin, updatingStart_status nProjects selected hrange]
        rw [if_pos hsel]
      subst hi
      rw [happ, hstat _, if_pos rfl]
      right
      refine ⟨holdv, ?_⟩
      by_cases hsucc : (msgs.get ⟨k, hk⟩).success = true
      · left; rw [if_pos hsucc]
      · right; rw [if_neg hsucc]
    · left
      rw [happ, hstat i, if_neg hi]
  · intro k hkle
    obtain ⟨hc, _, _, _, _⟩ := applyMsgs_spec (msgs.take k)
      (updatingStart nProjects selected) (htknodup k)
    rw [hc, hs0c, List.length_take]
    omega
  · intro k hkle
    obtain ⟨_, _, _, _, hl⟩ := applyMsgs_spec (msgs.take k)
      (updatingStart nProjects selected) (htknodup k)
    rw [hl, hs0c, hs0t, hs0l, List.length_take]
    have hmin : min k msgs.length = k := by omega
    rw [hmin]
    by_cases h0 : k = 0
    · subst h0
      rw [if_pos rfl]
      constructor
      · intro h; exact absurd h (by simp)
      · intro h; exact absurd h.symm hlen0
    · rw [if_neg h0]
      by_cases hge : selected.length ≤ 0 + k
      · rw [if_pos hge]
        refine ⟨fun _ => by omega, fun _ => rfl⟩
      · rw [if_neg hge]
        constructor
        · intro h; exact absurd h (by simp)
        · intro h; exact absurd (by omega : selected.length ≤ 0 + k) hge

/-- The concrete message batch of the C9 witness: project 1 fails first,
then project 0 succeeds. -/
def c9Msgs : List UpdateCompleteMsg :=
  [⟨1, false, "pull failed"⟩, ⟨0, true, ""⟩]

/-- Witness for C9: with two selected in-range projects and both
completion messages handled, the loading flag is cleared exactly at
completed count two. -/
theorem performUpdates_choreography_witness :
    (applyMsgs (c9Msgs.take 2) (updatingStart 2 [0, 1])).loading = false
      ↔ 2 = ([0, 1] : List Nat).length :=
  (performUpdates_choreography 2 [0, 1] c9Msgs (by decide) (by decide)
    (by decide) (by decide)).2.2.2 2 (by decide)

end UI
